import Mathlib

/- Verification of the report rendering pipeline: image normalization,
   fit calculation, caption composition, and layout/pagination, embedded
   from src/services/pdfService.ts and src/services/docxService.ts. -/

namespace Report

/-! ## A model of JavaScript (IEEE-754 double) arithmetic

The services perform divisions that can have a zero divisor (JavaScript
yields Infinity or NaN there, it does not throw).  `JsNum` models the
relevant part of the double semantics exactly: finite values are kept as
exact rationals, which is faithful for the small integer inputs the
services actually pass around. -/

/-- An IEEE-754 style extended number: a finite (exact rational) value,
a signed infinity, or NaN. -/
inductive JsNum where
  | fin (q : ℚ)
  | posInf
  | negInf
  | nan
  deriving DecidableEq

/-- JavaScript division `a / b` of two finite numbers: IEEE semantics for a
zero divisor (0/0 is NaN, otherwise a signed infinity). -/
def jsDiv (a b : ℚ) : JsNum :=
  if b = 0 then
    if a = 0 then JsNum.nan
    else if 0 < a then JsNum.posInf
    else JsNum.negInf
  else JsNum.fin (a / b)

/-- JavaScript `Math.min`: NaN propagates, otherwise the usual order with
infinities at the extremes. -/
def jsMin : JsNum → JsNum → JsNum
  | JsNum.nan, _ => JsNum.nan
  | _, JsNum.nan => JsNum.nan
  | JsNum.negInf, _ => JsNum.negInf
  | _, JsNum.negInf => JsNum.negInf
  | JsNum.posInf, y => y
  | x, JsNum.posInf => x
  | JsNum.fin a, JsNum.fin b => JsNum.fin (min a b)

/-- JavaScript multiplication: NaN propagates, zero times an infinity is
NaN, otherwise infinities obey the sign rule. -/
def jsMul : JsNum → JsNum → JsNum
  | JsNum.nan, _ => JsNum.nan
  | _, JsNum.nan => JsNum.nan
  | JsNum.fin a, JsNum.fin b => JsNum.fin (a * b)
  | JsNum.fin a, JsNum.posInf =>
      if a = 0 then JsNum.nan else if 0 < a then JsNum.posInf else JsNum.negInf
  | JsNum.posInf, JsNum.fin a =>
      if a = 0 then JsNum.nan else if 0 < a then JsNum.posInf else JsNum.negInf
  | JsNum.fin a, JsNum.negInf =>
      if a = 0 then JsNum.nan else if 0 < a then JsNum.negInf else JsNum.posInf
  | JsNum.negInf, JsNum.fin a =>
      if a = 0 then JsNum.nan else if 0 < a then JsNum.negInf else JsNum.posInf
  | JsNum.posInf, JsNum.posInf => JsNum.posInf
  | JsNum.posInf, JsNum.negInf => JsNum.negInf
  | JsNum.negInf, JsNum.posInf => JsNum.negInf
  | JsNum.negInf, JsNum.negInf => JsNum.posInf

/-- Rounding half toward positive infinity, `⌊q + 1/2⌋`, stated through the
executable `Rat.floor`; this is exactly JavaScript's `Math.round` on finite
values, and it agrees with Mathlib's `round` (`ratRound_eq_round`). -/
def ratRound (q : ℚ) : ℤ :=
  (q + 1 / 2).floor

theorem ratFloor_eq_intFloor (q : ℚ) : q.floor = ⌊q⌋ := by
  rw [Rat.floor_def', Rat.floor_def]

theorem ratRound_eq_round (q : ℚ) : ratRound q = round q := by
  rw [ratRound, round_eq, ratFloor_eq_intFloor]

theorem ratRound_eq_of (q : ℚ) (n : ℤ) (h1 : (n : ℚ) ≤ q + 1 / 2) (h2 : q + 1 / 2 < n + 1) :
    ratRound q = n := by
  rw [ratRound, ratFloor_eq_intFloor]
  exact Int.floor_eq_iff.mpr ⟨h1, h2⟩

theorem le_ratRound_of (q : ℚ) (n : ℤ) (h : (n : ℚ) ≤ q + 1 / 2) : n ≤ ratRound q := by
  rw [ratRound, ratFloor_eq_intFloor]
  exact Int.le_floor.mpr h

theorem ratRound_le_of (q : ℚ) (n : ℤ) (h : q + 1 / 2 < (n : ℚ) + 1) : ratRound q ≤ n := by
  rw [ratRound, ratFloor_eq_intFloor]
  have h' : (⌊q + 1 / 2⌋ : ℤ) < n + 1 := by
    apply Int.floor_lt.mpr
    push_cast
    exact h
  omega

theorem abs_ratRound_sub (q : ℚ) : |(ratRound q : ℚ) - q| ≤ 1 / 2 := by
  rw [ratRound_eq_round, abs_sub_comm]
  exact abs_sub_round q

theorem ratRound_natCast (m : ℕ) : ratRound (m : ℚ) = (m : ℤ) := by
  rw [ratRound_eq_round, round_natCast]

/-- JavaScript `Math.round`: round half toward positive infinity on finite
values; infinities and NaN pass through. -/
def jsRound : JsNum → JsNum
  | JsNum.fin q => JsNum.fin ((ratRound q : ℤ) : ℚ)
  | JsNum.posInf => JsNum.posInf
  | JsNum.negInf => JsNum.negInf
  | JsNum.nan => JsNum.nan

theorem jsDiv_of_ne_zero (a b : ℚ) (hb : b ≠ 0) : jsDiv a b = JsNum.fin (a / b) := by
  rw [jsDiv, if_neg hb]

theorem jsDiv_zero_of_pos (a : ℚ) (ha : 0 < a) : jsDiv a 0 = JsNum.posInf := by
  rw [jsDiv, if_pos rfl, if_neg ha.ne', if_pos ha]

theorem jsDiv_zero_zero : jsDiv 0 0 = JsNum.nan := by
  rw [jsDiv, if_pos rfl, if_pos rfl]

@[simp] theorem jsMin_fin_fin (a b : ℚ) : jsMin (JsNum.fin a) (JsNum.fin b) = JsNum.fin (min a b) := rfl

@[simp] theorem jsMin_posInf_fin (b : ℚ) : jsMin JsNum.posInf (JsNum.fin b) = JsNum.fin b := rfl

@[simp] theorem jsMin_fin_posInf (a : ℚ) : jsMin (JsNum.fin a) JsNum.posInf = JsNum.fin a := rfl

@[simp] theorem jsMin_posInf_posInf : jsMin JsNum.posInf JsNum.posInf = JsNum.posInf := rfl

@[simp] theorem jsMin_nan_posInf : jsMin JsNum.nan JsNum.posInf = JsNum.nan := rfl

@[simp] theorem jsMin_posInf_nan : jsMin JsNum.posInf JsNum.nan = JsNum.nan := rfl

@[simp] theorem jsMin_nan_fin (b : ℚ) : jsMin JsNum.nan (JsNum.fin b) = JsNum.nan := rfl

@[simp] theorem jsMin_fin_nan (a : ℚ) : jsMin (JsNum.fin a) JsNum.nan = JsNum.nan := rfl

@[simp] theorem jsMin_nan_nan : jsMin JsNum.nan JsNum.nan = JsNum.nan := rfl

@[simp] theorem jsMul_fin_fin (a b : ℚ) : jsMul (JsNum.fin a) (JsNum.fin b) = JsNum.fin (a * b) := rfl

@[simp] theorem jsMul_fin_nan (a : ℚ) : jsMul (JsNum.fin a) JsNum.nan = JsNum.nan := rfl

@[simp] theorem jsMul_zero_posInf : jsMul (JsNum.fin 0) JsNum.posInf = JsNum.nan := by
  show (if (0 : ℚ) = 0 then JsNum.nan
    else if 0 < (0 : ℚ) then JsNum.posInf else JsNum.negInf) = JsNum.nan
  rw [if_pos rfl]

@[simp] theorem jsRound_fin (q : ℚ) : jsRound (JsNum.fin q) = JsNum.fin ((ratRound q : ℤ) : ℚ) := rfl

@[simp] theorem jsRound_nan : jsRound JsNum.nan = JsNum.nan := rfl

/-! ## Constants of the fixed-page (pdf) renderer, in mm -/

/-- A4 page width (pdfService line 6). -/
def PAGE_WIDTH : ℚ := 210

/-- A4 page height (pdfService line 7). -/
def PAGE_HEIGHT : ℚ := 297

/-- Left/right margin (pdfService line 8). -/
def MARGIN_X : ℚ := 20

/-- Top margin (pdfService line 9). -/
def MARGIN_Y : ℚ := 20

/-- Safe bottom margin (pdfService line 10). -/
def MARGIN_BOTTOM : ℚ := 20

/-- Usable text width (pdfService line 11). -/
def CONTENT_WIDTH : ℚ := PAGE_WIDTH - MARGIN_X * 2

/-- Single-column image width (pdfService line 14). -/
def LIST_IMG_WIDTH : ℚ := 120

/-- Cap on either dimension of a normalized image
(docxService lines 13 and 96). -/
def MAX_DIMENSION : ℕ := 1600

namespace pdfService

/-- Embeds `calculateFitDimensions` of pdfService (lines 26-33): guard
against a zero source dimension, then exact scaling by
`min (maxW / w) (maxH / h)` with no rounding.  Image dimensions and the
box bounds are natural numbers at every call site. -/
def calculateFitDimensions (originalW originalH maxW maxH : ℕ) : ℚ × ℚ :=
  if originalH = 0 ∨ originalW = 0 then (0, 0)
  else
    let ratio : ℚ := min ((maxW : ℚ) / (originalW : ℚ)) ((maxH : ℚ) / (originalH : ℚ))
    ((originalW : ℚ) * ratio, (originalH : ℚ) * ratio)

end pdfService

namespace docxService

/-- Embeds `calculateFitDimensions` of docxService (lines 159-165): no
zero guard, JavaScript division (Infinity/NaN on a zero divisor, modelled
by `jsDiv`), and each result passed through `Math.round`. -/
def calculateFitDimensions (originalW originalH maxW maxH : ℕ) : JsNum × JsNum :=
  let ratio := jsMin (jsDiv (maxW : ℚ) (originalW : ℚ)) (jsDiv (maxH : ℚ) (originalH : ℚ))
  (jsRound (jsMul (JsNum.fin (originalW : ℚ)) ratio),
   jsRound (jsMul (JsNum.fin (originalH : ℚ)) ratio))

end docxService

/-- On strictly positive source dimensions the flow-document fit calculator
reduces to plain rational arithmetic followed by rounding. -/
theorem docx_fit_of_pos (w h maxW maxH : ℕ) (hw : 0 < w) (hh : 0 < h) :
    docxService.calculateFitDimensions w h maxW maxH =
      (JsNum.fin ((ratRound ((w : ℚ) * min ((maxW : ℚ) / w) ((maxH : ℚ) / h)) : ℤ) : ℚ),
       JsNum.fin ((ratRound ((h : ℚ) * min ((maxW : ℚ) / w) ((maxH : ℚ) / h)) : ℤ) : ℚ)) := by
  have hw' : ((w : ℚ)) ≠ 0 := Nat.cast_ne_zero.mpr hw.ne'
  have hh' : ((h : ℚ)) ≠ 0 := Nat.cast_ne_zero.mpr hh.ne'
  simp only [docxService.calculateFitDimensions, jsDiv_of_ne_zero _ _ hw',
    jsDiv_of_ne_zero _ _ hh', jsMin_fin_fin, jsMul_fin_fin, jsRound_fin]

/-- C2, counterexample.  The flow-document (docx) fit calculator has no zero
guard: for a zero source width with nonzero source height it performs the
JavaScript division `500 / 0 = Infinity`, the infinite quotient is discarded
by `Math.min`, and the result is `{width: 0, height: maxH}`, not
`{width: 0, height: 0}`. -/
theorem C2_counterexample :
    docxService.calculateFitDimensions 0 100 500 800 ≠ (JsNum.fin 0, JsNum.fin 0) ∧
    docxService.calculateFitDimensions 0 100 500 800 = (JsNum.fin 0, JsNum.fin 800) := by
  have h : docxService.calculateFitDimensions 0 100 500 800 = (JsNum.fin 0, JsNum.fin 800) := by
    have h1 : jsDiv ((500 : ℕ) : ℚ) ((0 : ℕ) : ℚ) = JsNum.posInf := by
      norm_num [jsDiv_zero_of_pos]
    have h2 : jsDiv ((800 : ℕ) : ℚ) ((100 : ℕ) : ℚ) = JsNum.fin 8 := by
      rw [jsDiv_of_ne_zero _ _ (by norm_num)]
      norm_num
    simp only [docxService.calculateFitDimensions, h1, h2, jsMin_posInf_fin, jsMul_fin_fin,
      jsRound_fin]
    norm_num
    constructor
    · exact ratRound_eq_of 0 0 (by norm_num) (by norm_num)
    · rw [ratRound_eq_of 800 800 (by norm_num) (by norm_num)]
      norm_num
  exact ⟨by simp [h], h⟩

/-- C2, amended.  Only the fixed-page (pdf) fit calculator guards zero source
dimensions and returns `{0, 0}`.  The flow-document (docx) variant divides by
zero in the JavaScript sense: with a zero source width (and nonzero height and
bound) it returns `{0, maxH}`, symmetrically `{maxW, 0}` for a zero source
height, and `{NaN, NaN}` when both source dimensions are zero. -/
theorem C2_amended (w h maxW maxH : ℕ) :
    (w = 0 ∨ h = 0 → pdfService.calculateFitDimensions w h maxW maxH = (0, 0)) ∧
    (w = 0 → 0 < h → 0 < maxW →
      docxService.calculateFitDimensions w h maxW maxH = (JsNum.fin 0, JsNum.fin (maxH : ℚ))) ∧
    (h = 0 → 0 < w → 0 < maxH →
      docxService.calculateFitDimensions w h maxW maxH = (JsNum.fin (maxW : ℚ), JsNum.fin 0)) ∧
    (w = 0 → h = 0 →
      docxService.calculateFitDimensions w h maxW maxH = (JsNum.nan, JsNum.nan)) := by
  refine ⟨?_, ?_, ?_, ?_⟩
  · intro hzero
    simp only [pdfService.calculateFitDimensions]
    rw [if_pos (by tauto)]
  · intro hw hh hW
    subst hw
    have hh' : ((h : ℚ)) ≠ 0 := Nat.cast_ne_zero.mpr hh.ne'
    have hW' : (0 : ℚ) < (maxW : ℚ) := by exact_mod_cast hW
    simp only [docxService.calculateFitDimensions, Nat.cast_zero, jsDiv_zero_of_pos _ hW',
      jsDiv_of_ne_zero _ _ hh', jsMin_posInf_fin, jsMul_fin_fin, jsRound_fin]
    have r0 : ratRound (0 : ℚ) = 0 := by rw [ratRound_eq_round, round_zero]
    rw [zero_mul, mul_div_cancel₀ (maxH : ℚ) hh', ratRound_natCast, r0]
    norm_num
  · intro hh hw hH
    subst hh
    have hw' : ((w : ℚ)) ≠ 0 := Nat.cast_ne_zero.mpr hw.ne'
    have hH' : (0 : ℚ) < (maxH : ℚ) := by exact_mod_cast hH
    simp only [docxService.calculateFitDimensions, Nat.cast_zero, jsDiv_zero_of_pos _ hH',
      jsDiv_of_ne_zero _ _ hw', jsMin_fin_posInf, jsMul_fin_fin, jsRound_fin]
    have r0 : ratRound (0 : ℚ) = 0 := by rw [ratRound_eq_round, round_zero]
    rw [zero_mul, mul_div_cancel₀ (maxW : ℚ) hw', ratRound_natCast, r0]
    norm_num
  · intro hw hh
    subst hw; subst hh
    rcases Nat.eq_zero_or_pos maxW with hW | hW
    · subst hW
      rcases Nat.eq_zero_or_pos maxH with hH | hH
      · subst hH
        simp only [docxService.calculateFitDimensions, Nat.cast_zero, jsDiv_zero_zero,
          jsMin_nan_nan, jsMul_fin_nan, jsRound_nan]
      · have hH' : (0 : ℚ) < (maxH : ℚ) := by exact_mod_cast hH
        simp only [docxService.calculateFitDimensions, Nat.cast_zero, jsDiv_zero_zero,
          jsDiv_zero_of_pos _ hH', jsMin_nan_posInf, jsMul_fin_nan, jsRound_nan]
    · have hW' : (0 : ℚ) < (maxW : ℚ) := by exact_mod_cast hW
      rcases Nat.eq_zero_or_pos maxH with hH | hH
      · subst hH
        simp only [docxService.calculateFitDimensions, Nat.cast_zero, jsDiv_zero_zero,
          jsDiv_zero_of_pos _ hW', jsMin_posInf_nan, jsMul_fin_nan, jsRound_nan]
      · have hH' : (0 : ℚ) < (maxH : ℚ) := by exact_mod_cast hH
        simp only [docxService.calculateFitDimensions, Nat.cast_zero, jsDiv_zero_of_pos _ hW',
          jsDiv_zero_of_pos _ hH', jsMin_posInf_posInf, jsMul_zero_posInf, jsRound_nan]

/-- C2, witness at source `(0, 100)` and bounds `(500, 800)`. -/
theorem C2_witness :
    pdfService.calculateFitDimensions 0 100 500 800 = (0, 0) ∧
    docxService.calculateFitDimensions 0 100 500 800 = (JsNum.fin 0, JsNum.fin (800 : ℚ)) := by
  refine ⟨(C2_amended 0 100 500 800).1 (Or.inl rfl),
    ?_⟩
  have h := (C2_amended 0 100 500 800).2.1 rfl (by norm_num) (by norm_num)
  simpa using h

/-- C3.  For strictly positive inputs, both fit calculators scale the source
by `ratio = min (maxW / srcW) (maxH / srcH)`: the fixed-page (pdf) variant
exactly, the flow-document (docx) variant followed by `Math.round`.  The
results never exceed the bounds and the aspect ratio is preserved exactly
(pdf) respectively within rounding distance 1/2 (docx). -/
theorem C3_fit_scaling (w h maxW maxH : ℕ) (hw : 0 < w) (hh : 0 < h)
    (hW : 0 < maxW) (hH : 0 < maxH) :
    pdfService.calculateFitDimensions w h maxW maxH =
      ((w : ℚ) * min ((maxW : ℚ) / w) ((maxH : ℚ) / h),
       (h : ℚ) * min ((maxW : ℚ) / w) ((maxH : ℚ) / h)) ∧
    (pdfService.calculateFitDimensions w h maxW maxH).1 ≤ (maxW : ℚ) ∧
    (pdfService.calculateFitDimensions w h maxW maxH).2 ≤ (maxH : ℚ) ∧
    (pdfService.calculateFitDimensions w h maxW maxH).1 * (h : ℚ) =
      (pdfService.calculateFitDimensions w h maxW maxH).2 * (w : ℚ) ∧
    docxService.calculateFitDimensions w h maxW maxH =
      (JsNum.fin ((ratRound ((pdfService.calculateFitDimensions w h maxW maxH).1) : ℤ) : ℚ),
       JsNum.fin ((ratRound ((pdfService.calculateFitDimensions w h maxW maxH).2) : ℤ) : ℚ)) ∧
    ratRound ((pdfService.calculateFitDimensions w h maxW maxH).1) ≤ (maxW : ℤ) ∧
    ratRound ((pdfService.calculateFitDimensions w h maxW maxH).2) ≤ (maxH : ℤ) ∧
    |(ratRound ((pdfService.calculateFitDimensions w h maxW maxH).1) : ℚ) -
        (pdfService.calculateFitDimensions w h maxW maxH).1| ≤ 1 / 2 ∧
    |(ratRound ((pdfService.calculateFitDimensions w h maxW maxH).2) : ℚ) -
        (pdfService.calculateFitDimensions w h maxW maxH).2| ≤ 1 / 2 := by
  have hw' : ((w : ℚ)) ≠ 0 := Nat.cast_ne_zero.mpr hw.ne'
  have hh' : ((h : ℚ)) ≠ 0 := Nat.cast_ne_zero.mpr hh.ne'
  have hwq : (0 : ℚ) ≤ (w : ℚ) := Nat.cast_nonneg w
  have hhq : (0 : ℚ) ≤ (h : ℚ) := Nat.cast_nonneg h
  have hpdf : pdfService.calculateFitDimensions w h maxW maxH =
      ((w : ℚ) * min ((maxW : ℚ) / w) ((maxH : ℚ) / h),
       (h : ℚ) * min ((maxW : ℚ) / w) ((maxH : ℚ) / h)) := by
    rw [pdfService.calculateFitDimensions, if_neg (by push_neg; exact ⟨hh.ne', hw.ne'⟩)]
  have hb1 : (w : ℚ) * min ((maxW : ℚ) / w) ((maxH : ℚ) / h) ≤ (maxW : ℚ) := by
    calc (w : ℚ) * min ((maxW : ℚ) / w) ((maxH : ℚ) / h)
        ≤ (w : ℚ) * ((maxW : ℚ) / w) := by
          exact mul_le_mul_of_nonneg_left (min_le_left _ _) hwq
      _ = (maxW : ℚ) := by rw [mul_comm, div_mul_cancel₀ _ hw']
  have hb2 : (h : ℚ) * min ((maxW : ℚ) / w) ((maxH : ℚ) / h) ≤ (maxH : ℚ) := by
    calc (h : ℚ) * min ((maxW : ℚ) / w) ((maxH : ℚ) / h)
        ≤ (h : ℚ) * ((maxH : ℚ) / h) := by
          exact mul_le_mul_of_nonneg_left (min_le_right _ _) hhq
      _ = (maxH : ℚ) := by rw [mul_comm, div_mul_cancel₀ _ hh']
  refine ⟨hpdf, ?_, ?_, ?_, ?_, ?_, ?_, ?_, ?_⟩
  · rw [hpdf]; exact hb1
  · rw [hpdf]; exact hb2
  · rw [hpdf]; ring
  · rw [hpdf]; exact docx_fit_of_pos w h maxW maxH hw hh
  · rw [hpdf]
    exact ratRound_le_of _ _ (by push_cast; linarith)
  · rw [hpdf]
    exact ratRound_le_of _ _ (by push_cast; linarith)
  · rw [hpdf]; exact abs_ratRound_sub _
  · rw [hpdf]; exact abs_ratRound_sub _

/-- C3, witness at source `(4, 3)` and bounds `(8, 6)`: ratio 2, both results
hit the bounds exactly in both services. -/
theorem C3_witness :
    pdfService.calculateFitDimensions 4 3 8 6 = (8, 6) ∧
    docxService.calculateFitDimensions 4 3 8 6 = (JsNum.fin 8, JsNum.fin 6) := by
  have h := C3_fit_scaling 4 3 8 6 (by norm_num) (by norm_num) (by norm_num) (by norm_num)
  have hpdf : pdfService.calculateFitDimensions 4 3 8 6 = (8, 6) := by
    rw [h.1]
    norm_num
  refine ⟨hpdf, ?_⟩
  rw [h.2.2.2.2.1, hpdf]
  rw [ratRound_eq_of (8 : ℚ) 8 (by norm_num) (by norm_num),
    ratRound_eq_of (6 : ℚ) 6 (by norm_num) (by norm_num)]
  norm_num

/-- C10, counterexample.  Claim C10 asserts that for positive sources strictly
inside the box both returned dimensions are strictly larger than the source.
For source `(1, 1000)` and box `(2, 1001)` the ratio is `1001/1000 > 1`, but
the flow-document (docx) calculator rounds the scaled width `1.001` back down
to `1`, exactly the source width, so the returned width is not strictly
larger. -/
theorem C10_counterexample :
    (1 : ℕ) < 2 ∧ (1000 : ℕ) < 1001 ∧
    docxService.calculateFitDimensions 1 1000 2 1001 = (JsNum.fin 1, JsNum.fin 1001) := by
  refine ⟨by norm_num, by norm_num, ?_⟩
  rw [docx_fit_of_pos 1 1000 2 1001 (by norm_num) (by norm_num)]
  have hmin : min (((2 : ℕ) : ℚ) / ((1 : ℕ) : ℚ)) (((1001 : ℕ) : ℚ) / ((1000 : ℕ) : ℚ)) =
      1001 / 1000 := by
    norm_num
  rw [hmin]
  rw [show ((1 : ℕ) : ℚ) * (1001 / 1000 : ℚ) = 1001 / 1000 by norm_num,
    show ((1000 : ℕ) : ℚ) * (1001 / 1000 : ℚ) = 1001 by norm_num]
  rw [ratRound_eq_of (1001 / 1000 : ℚ) 1 (by norm_num) (by norm_num),
    ratRound_eq_of (1001 : ℚ) 1001 (by norm_num) (by norm_num)]
  norm_num

/-- C10, amended.  For positive sources strictly inside the box the ratio is
strictly greater than 1 and the fixed-page (pdf, unrounded) results are
strictly larger than the source; the flow-document (docx, rounded) results
are only guaranteed to be at least the source dimensions, since rounding can
map them back onto the source (see the counterexample).  In both services the
dimension attaining the minimum ratio lands exactly on its bound. -/
theorem C10_amended (w h maxW maxH : ℕ) (hw : 0 < w) (hh : 0 < h)
    (hW : w < maxW) (hH : h < maxH) :
    1 < min ((maxW : ℚ) / w) ((maxH : ℚ) / h) ∧
    (w : ℚ) < (pdfService.calculateFitDimensions w h maxW maxH).1 ∧
    (h : ℚ) < (pdfService.calculateFitDimensions w h maxW maxH).2 ∧
    ((pdfService.calculateFitDimensions w h maxW maxH).1 = (maxW : ℚ) ∨
     (pdfService.calculateFitDimensions w h maxW maxH).2 = (maxH : ℚ)) ∧
    docxService.calculateFitDimensions w h maxW maxH =
      (JsNum.fin ((ratRound ((pdfService.calculateFitDimensions w h maxW maxH).1) : ℤ) : ℚ),
       JsNum.fin ((ratRound ((pdfService.calculateFitDimensions w h maxW maxH).2) : ℤ) : ℚ)) ∧
    (w : ℤ) ≤ ratRound ((pdfService.calculateFitDimensions w h maxW maxH).1) ∧
    (h : ℤ) ≤ ratRound ((pdfService.calculateFitDimensions w h maxW maxH).2) ∧
    (ratRound ((pdfService.calculateFitDimensions w h maxW maxH).1) = (maxW : ℤ) ∨
     ratRound ((pdfService.calculateFitDimensions w h maxW maxH).2) = (maxH : ℤ)) := by
  have hw' : ((w : ℚ)) ≠ 0 := Nat.cast_ne_zero.mpr hw.ne'
  have hh' : ((h : ℚ)) ≠ 0 := Nat.cast_ne_zero.mpr hh.ne'
  have hwq : (0 : ℚ) < (w : ℚ) := by exact_mod_cast hw
  have hhq : (0 : ℚ) < (h : ℚ) := by exact_mod_cast hh
  have hr1 : 1 < (maxW : ℚ) / w := (one_lt_div hwq).mpr (by exact_mod_cast hW)
  have hr2 : 1 < (maxH : ℚ) / h := (one_lt_div hhq).mpr (by exact_mod_cast hH)
  have hr : 1 < min ((maxW : ℚ) / w) ((maxH : ℚ) / h) := lt_min hr1 hr2
  have hpdf : pdfService.calculateFitDimensions w h maxW maxH =
      ((w : ℚ) * min ((maxW : ℚ) / w) ((maxH : ℚ) / h),
       (h : ℚ) * min ((maxW : ℚ) / w) ((maxH : ℚ) / h)) := by
    rw [pdfService.calculateFitDimensions, if_neg (by push_neg; exact ⟨hh.ne', hw.ne'⟩)]
  have hlt1 : (w : ℚ) < (w : ℚ) * min ((maxW : ℚ) / w) ((maxH : ℚ) / h) := by
    nth_rewrite 1 [show (w : ℚ) = (w : ℚ) * 1 by ring]
    exact mul_lt_mul_of_pos_left hr hwq
  have hlt2 : (h : ℚ) < (h : ℚ) * min ((maxW : ℚ) / w) ((maxH : ℚ) / h) := by
    nth_rewrite 1 [show (h : ℚ) = (h : ℚ) * 1 by ring]
    exact mul_lt_mul_of_pos_left hr hhq
  refine ⟨hr, ?_, ?_, ?_, ?_, ?_, ?_, ?_⟩
  · rw [hpdf]; exact hlt1
  · rw [hpdf]; exact hlt2
  · rw [hpdf]
    rcases min_cases ((maxW : ℚ) / w) ((maxH : ℚ) / h) with ⟨hmin, _⟩ | ⟨hmin, _⟩
    · left
      rw [hmin]
      show (w : ℚ) * ((maxW : ℚ) / w) = (maxW : ℚ)
      rw [mul_comm, div_mul_cancel₀ _ hw']
    · right
      rw [hmin]
      show (h : ℚ) * ((maxH : ℚ) / h) = (maxH : ℚ)
      rw [mul_comm, div_mul_cancel₀ _ hh']
  · rw [hpdf]; exact docx_fit_of_pos w h maxW maxH hw hh
  · rw [hpdf]
    exact le_ratRound_of _ _ (by push_cast; linarith)
  · rw [hpdf]
    exact le_ratRound_of _ _ (by push_cast; linarith)
  · rw [hpdf]
    rcases min_cases ((maxW : ℚ) / w) ((maxH : ℚ) / h) with ⟨hmin, _⟩ | ⟨hmin, _⟩
    · left
      rw [hmin]
      show ratRound ((w : ℚ) * ((maxW : ℚ) / w)) = (maxW : ℤ)
      rw [mul_comm, div_mul_cancel₀ _ hw', ratRound_natCast]
    · right
      rw [hmin]
      show ratRound ((h : ℚ) * ((maxH : ℚ) / h)) = (maxH : ℤ)
      rw [mul_comm, div_mul_cancel₀ _ hh', ratRound_natCast]

/-- C10, witness at source `(1, 1000)` and box `(2, 1001)`. -/
theorem C10_witness :
    1 < min (((2 : ℕ) : ℚ) / ((1 : ℕ) : ℚ)) (((1001 : ℕ) : ℚ) / ((1000 : ℕ) : ℚ)) ∧
    ((1 : ℕ) : ℚ) < (pdfService.calculateFitDimensions 1 1000 2 1001).1 ∧
    ((1000 : ℕ) : ℤ) ≤ ratRound ((pdfService.calculateFitDimensions 1 1000 2 1001).2) := by
  have h := C10_amended 1 1000 2 1001 (by norm_num) (by norm_num) (by norm_num) (by norm_num)
  exact ⟨h.1, h.2.1, h.2.2.2.2.2.2.1⟩

namespace docxService

/-- Dimension part of the image normalizer: the downscale step shared
verbatim by the worker strategy (WORKER_CODE, docxService lines 13-21) and
the synchronous fallback (processImageOnMainThread, lines 96-104): if either
source dimension exceeds MAX_DIMENSION, scale both by
`min (MAX_DIMENSION / width) (MAX_DIMENSION / height)` and round. -/
def scaleCapDims (w h : ℕ) : JsNum × JsNum :=
  if MAX_DIMENSION < w ∨ MAX_DIMENSION < h then
    (jsRound (jsMul (JsNum.fin (w : ℚ))
        (jsMin (jsDiv (MAX_DIMENSION : ℚ) (w : ℚ)) (jsDiv (MAX_DIMENSION : ℚ) (h : ℚ)))),
     jsRound (jsMul (JsNum.fin (h : ℚ))
        (jsMin (jsDiv (MAX_DIMENSION : ℚ) (w : ℚ)) (jsDiv (MAX_DIMENSION : ℚ) (h : ℚ)))))
  else (JsNum.fin (w : ℚ), JsNum.fin (h : ℚ))

/-- Output dimensions of `processImage`: the scaled pre-rotation dimensions,
swapped when `rotation % 180 !== 0` (WORKER_CODE lines 23-25 and
processImageOnMainThread lines 106-108). -/
def processImageDims (w h rotation : ℕ) : JsNum × JsNum :=
  let scaled := scaleCapDims w h
  if rotation % 180 ≠ 0 then (scaled.2, scaled.1) else (scaled.1, scaled.2)

end docxService

/-- For the four rotations the app can produce, the `% 180` test of the
normalizer is equivalent to membership in {90, 270}. -/
theorem processImageDims_cases (w h rot : ℕ)
    (hrot : rot = 0 ∨ rot = 90 ∨ rot = 180 ∨ rot = 270) :
    docxService.processImageDims w h rot =
      (if rot = 90 ∨ rot = 270
       then ((docxService.scaleCapDims w h).2, (docxService.scaleCapDims w h).1)
       else docxService.scaleCapDims w h) := by
  rcases hrot with rfl | rfl | rfl | rfl <;>
    simp [docxService.processImageDims]

/-- C4.  For every source image and every rotation in {0, 90, 180, 270}, the
normalizer's output dimensions are the scaled pre-rotation dimensions swapped
exactly when the rotation is 90 or 270, and unswapped for 0 and 180. -/
theorem C4_rotation_swap (w h rot : ℕ)
    (hrot : rot = 0 ∨ rot = 90 ∨ rot = 180 ∨ rot = 270) :
    docxService.processImageDims w h rot =
      (if rot = 90 ∨ rot = 270
       then ((docxService.scaleCapDims w h).2, (docxService.scaleCapDims w h).1)
       else docxService.scaleCapDims w h) :=
  processImageDims_cases w h rot hrot

/-- C4, witness: a 100 by 50 source rotated by 90 comes out swapped. -/
theorem C4_witness :
    docxService.processImageDims 100 50 90 =
      ((docxService.scaleCapDims 100 50).2, (docxService.scaleCapDims 100 50).1) := by
  have h := C4_rotation_swap 100 50 90 (Or.inr (Or.inl rfl))
  simpa using h

/-- C5.  The normalized dimensions are always finite integers bounded by
MAX_DIMENSION = 1600 in both components; the cap is applied to the
pre-rotation orientation (the output is the capped pair, swapped or not),
and when scaling actually occurs on a positive source it lands within
rounding distance 1/2 of the exact aspect-preserving scale. -/
theorem C5_normalized_bounded (w h rot : ℕ)
    (hrot : rot = 0 ∨ rot = 90 ∨ rot = 180 ∨ rot = 270) :
    ∃ a b : ℤ, 0 ≤ a ∧ 0 ≤ b ∧ a ≤ (MAX_DIMENSION : ℤ) ∧ b ≤ (MAX_DIMENSION : ℤ) ∧
      docxService.scaleCapDims w h = (JsNum.fin (a : ℚ), JsNum.fin (b : ℚ)) ∧
      docxService.processImageDims w h rot =
        (if rot = 90 ∨ rot = 270 then (JsNum.fin (b : ℚ), JsNum.fin (a : ℚ))
         else (JsNum.fin (a : ℚ), JsNum.fin (b : ℚ))) ∧
      (0 < w → 0 < h → (MAX_DIMENSION < w ∨ MAX_DIMENSION < h) →
        |(a : ℚ) - (w : ℚ) * min ((MAX_DIMENSION : ℚ) / w) ((MAX_DIMENSION : ℚ) / h)| ≤ 1 / 2 ∧
        |(b : ℚ) - (h : ℚ) * min ((MAX_DIMENSION : ℚ) / w) ((MAX_DIMENSION : ℚ) / h)| ≤ 1 / 2) ∧
      (¬(MAX_DIMENSION < w ∨ MAX_DIMENSION < h) → a = (w : ℤ) ∧ b = (h : ℤ)) := by
  have hM : (0 : ℚ) < (MAX_DIMENSION : ℚ) := by norm_num [MAX_DIMENSION]
  have key : ∃ a b : ℤ, 0 ≤ a ∧ 0 ≤ b ∧ a ≤ (MAX_DIMENSION : ℤ) ∧ b ≤ (MAX_DIMENSION : ℤ) ∧
      docxService.scaleCapDims w h = (JsNum.fin (a : ℚ), JsNum.fin (b : ℚ)) ∧
      (0 < w → 0 < h → (MAX_DIMENSION < w ∨ MAX_DIMENSION < h) →
        |(a : ℚ) - (w : ℚ) * min ((MAX_DIMENSION : ℚ) / w) ((MAX_DIMENSION : ℚ) / h)| ≤ 1 / 2 ∧
        |(b : ℚ) - (h : ℚ) * min ((MAX_DIMENSION : ℚ) / w) ((MAX_DIMENSION : ℚ) / h)| ≤ 1 / 2) ∧
      (¬(MAX_DIMENSION < w ∨ MAX_DIMENSION < h) → a = (w : ℤ) ∧ b = (h : ℤ)) := by
    by_cases hscale : MAX_DIMENSION < w ∨ MAX_DIMENSION < h
    · rcases Nat.eq_zero_or_pos w with hw | hw
      · subst hw
        have hh : MAX_DIMENSION < h := by
          rcases hscale with hx | hx
          · omega
          · exact hx
        have hh0 : ((h : ℚ)) ≠ 0 := by
          have : 0 < h := by omega
          exact Nat.cast_ne_zero.mpr this.ne'
        refine ⟨0, (MAX_DIMENSION : ℤ), le_refl 0, by norm_num [MAX_DIMENSION],
          by norm_num [MAX_DIMENSION], le_refl _, ?_, ?_, ?_⟩
        · rw [docxService.scaleCapDims, if_pos hscale]
          simp only [Nat.cast_zero, jsDiv_zero_of_pos _ hM, jsDiv_of_ne_zero _ _ hh0,
            jsMin_posInf_fin, jsMul_fin_fin, jsRound_fin]
          have r0 : ratRound (0 : ℚ) = 0 := by rw [ratRound_eq_round, round_zero]
          rw [zero_mul, mul_div_cancel₀ _ hh0, ratRound_natCast, r0]
        · intro hw0
          omega
        · intro hc
          exact absurd hscale hc
      · rcases Nat.eq_zero_or_pos h with hh | hh
        · subst hh
          have hwM : MAX_DIMENSION < w := by
            rcases hscale with hx | hx
            · exact hx
            · omega
          have hw0 : ((w : ℚ)) ≠ 0 := Nat.cast_ne_zero.mpr hw.ne'
          refine ⟨(MAX_DIMENSION : ℤ), 0, by norm_num [MAX_DIMENSION], le_refl 0,
            le_refl _, by norm_num [MAX_DIMENSION], ?_, ?_, ?_⟩
          · rw [docxService.scaleCapDims, if_pos hscale]
            simp only [Nat.cast_zero, jsDiv_zero_of_pos _ hM, jsDiv_of_ne_zero _ _ hw0,
              jsMin_fin_posInf, jsMul_fin_fin, jsRound_fin]
            have r0 : ratRound (0 : ℚ) = 0 := by rw [ratRound_eq_round, round_zero]
            rw [zero_mul, mul_div_cancel₀ _ hw0, ratRound_natCast, r0]
          · intro _ hh0
            omega
          · intro hc
            exact absurd hscale hc
        · have hw0 : ((w : ℚ)) ≠ 0 := Nat.cast_ne_zero.mpr hw.ne'
          have hh0 : ((h : ℚ)) ≠ 0 := Nat.cast_ne_zero.mpr hh.ne'
          have hwq : (0 : ℚ) ≤ (w : ℚ) := Nat.cast_nonneg w
          have hhq : (0 : ℚ) ≤ (h : ℚ) := Nat.cast_nonneg h
          have hrpos : 0 ≤ min ((MAX_DIMENSION : ℚ) / w) ((MAX_DIMENSION : ℚ) / h) := by
            apply le_min <;> positivity
          have hb1 : (w : ℚ) * min ((MAX_DIMENSION : ℚ) / w) ((MAX_DIMENSION : ℚ) / h) ≤
              (MAX_DIMENSION : ℚ) := by
            calc (w : ℚ) * min ((MAX_DIMENSION : ℚ) / w) ((MAX_DIMENSION : ℚ) / h)
                ≤ (w : ℚ) * ((MAX_DIMENSION : ℚ) / w) :=
                  mul_le_mul_of_nonneg_left (min_le_left _ _) hwq
              _ = (MAX_DIMENSION : ℚ) := by rw [mul_comm, div_mul_cancel₀ _ hw0]
          have hb2 : (h : ℚ) * min ((MAX_DIMENSION : ℚ) / w) ((MAX_DIMENSION : ℚ) / h) ≤
              (MAX_DIMENSION : ℚ) := by
            calc (h : ℚ) * min ((MAX_DIMENSION : ℚ) / w) ((MAX_DIMENSION : ℚ) / h)
                ≤ (h : ℚ) * ((MAX_DIMENSION : ℚ) / h) :=
                  mul_le_mul_of_nonneg_left (min_le_right _ _) hhq
              _ = (MAX_DIMENSION : ℚ) := by rw [mul_comm, div_mul_cancel₀ _ hh0]
          refine ⟨ratRound ((w : ℚ) * min ((MAX_DIMENSION : ℚ) / w) ((MAX_DIMENSION : ℚ) / h)),
            ratRound ((h : ℚ) * min ((MAX_DIMENSION : ℚ) / w) ((MAX_DIMENSION : ℚ) / h)),
            le_ratRound_of _ _ (by positivity), le_ratRound_of _ _ (by positivity),
            ratRound_le_of _ _ (by push_cast; linarith),
            ratRound_le_of _ _ (by push_cast; linarith), ?_, ?_, ?_⟩
          · rw [docxService.scaleCapDims, if_pos hscale]
            simp only [jsDiv_of_ne_zero _ _ hw0, jsDiv_of_ne_zero _ _ hh0, jsMin_fin_fin,
              jsMul_fin_fin, jsRound_fin]
          · intro _ _ _
            exact ⟨abs_ratRound_sub _, abs_ratRound_sub _⟩
          · intro hc
            exact absurd hscale hc
    · push_neg at hscale
      refine ⟨(w : ℤ), (h : ℤ), Int.natCast_nonneg w, Int.natCast_nonneg h,
        by exact_mod_cast hscale.1, by exact_mod_cast hscale.2, ?_, ?_, ?_⟩
      · rw [docxService.scaleCapDims, if_neg (by push_neg; exact hscale)]
        norm_num
      · intro _ _ hc
        rcases hc with hc | hc
        · exact absurd hc (by omega)
        · exact absurd hc (by omega)
      · intro _
        exact ⟨rfl, rfl⟩
  obtain ⟨a, b, ha0, hb0, haM, hbM, hcap, habs, hid⟩ := key
  refine ⟨a, b, ha0, hb0, haM, hbM, hcap, ?_, habs, hid⟩
  rw [processImageDims_cases w h rot hrot, hcap]

/-- C5, witness: a 3200 by 1600 source rotated by 90. -/
theorem C5_witness :
    ∃ a b : ℤ, 0 ≤ a ∧ 0 ≤ b ∧ a ≤ (MAX_DIMENSION : ℤ) ∧ b ≤ (MAX_DIMENSION : ℤ) ∧
      docxService.scaleCapDims 3200 1600 = (JsNum.fin (a : ℚ), JsNum.fin (b : ℚ)) ∧
      docxService.processImageDims 3200 1600 90 =
        (if (90 : ℕ) = 90 ∨ (90 : ℕ) = 270 then (JsNum.fin (b : ℚ), JsNum.fin (a : ℚ))
         else (JsNum.fin (a : ℚ), JsNum.fin (b : ℚ))) ∧
      (0 < 3200 → 0 < 1600 → (MAX_DIMENSION < 3200 ∨ MAX_DIMENSION < 1600) →
        |(a : ℚ) - ((3200 : ℕ) : ℚ) *
            min ((MAX_DIMENSION : ℚ) / ((3200 : ℕ) : ℚ)) ((MAX_DIMENSION : ℚ) / ((1600 : ℕ) : ℚ))| ≤ 1 / 2 ∧
        |(b : ℚ) - ((1600 : ℕ) : ℚ) *
            min ((MAX_DIMENSION : ℚ) / ((3200 : ℕ) : ℚ)) ((MAX_DIMENSION : ℚ) / ((1600 : ℕ) : ℚ))| ≤ 1 / 2) ∧
      (¬(MAX_DIMENSION < 3200 ∨ MAX_DIMENSION < 1600) → a = ((3200 : ℕ) : ℤ) ∧ b = ((1600 : ℕ) : ℤ)) :=
  C5_normalized_bounded 3200 1600 90 (Or.inr (Or.inl rfl))

/-! ## Caption composition -/

namespace pdfService

/-- Caption label of the single-column renderer (pdfService line 112):
`'Figura {i+1}: '` when the description is truthy (nonempty), else
`'Figura {i+1}'`. -/
def listLabel (i : ℕ) (description : String) : String :=
  if description ≠ "" then "Figura " ++ toString (i + 1) ++ ": "
  else "Figura " ++ toString (i + 1)

/-- Full caption text of the single-column renderer (pdfService line 116):
label followed by the description when present. -/
def listFullText (i : ℕ) (description : String) : String :=
  if description ≠ "" then listLabel i description ++ description
  else listLabel i description

/-- Caption label built by getCaptionProps in the grid renderers
(pdfService lines 216 and 313). -/
def gridLabel (idx : ℕ) (description : String) : String :=
  if description ≠ "" then "Figura " ++ toString (idx + 1) ++ ": "
  else "Figura " ++ toString (idx + 1)

/-- Caption text built by getCaptionProps in the grid renderers
(pdfService lines 217 and 314). -/
def gridCaptionText (idx : ℕ) (description : String) : String :=
  if description ≠ "" then gridLabel idx description ++ description
  else gridLabel idx description

end pdfService

namespace docxService

/-- Texts of the caption TextRuns emitted by createCellContent
(docxService lines 197-218): a bold `'Figura {index+1}: '` run (without the
colon when the description is empty) followed by an italic description run
when the description is present. -/
def captionRunTexts (index : ℕ) (description : String) : List String :=
  (if description ≠ "" then "Figura " ++ toString (index + 1) ++ ": "
   else "Figura " ++ toString (index + 1)) ::
  (if description ≠ "" then [description] else [])

end docxService

theorem str_empty_append (s : String) : "" ++ s = s := by
  cases s
  rfl

theorem str_append_empty (s : String) : s ++ "" = s := by
  cases s with
  | mk data =>
    show String.mk (data ++ []) = String.mk data
    rw [List.append_nil]

theorem str_append_assoc (a b c : String) : a ++ b ++ c = a ++ (b ++ c) := by
  cases a with
  | mk da =>
    cases b with
    | mk db =>
      cases c with
      | mk dc =>
        show String.mk (da ++ db ++ dc) = String.mk (da ++ (db ++ dc))
        rw [List.append_assoc]

theorem str_join_pair (a b : String) : String.join [a, b] = a ++ b := by
  show "" ++ a ++ b = a ++ b
  rw [str_empty_append]

theorem str_join_single (a : String) : String.join [a] = a := by
  show "" ++ a = a
  rw [str_empty_append]

/-- C9.  The caption label of figure `idx + 1` is exactly
`"Figura {idx+1}: "` when the description is nonempty and exactly
`"Figura {idx+1}"` (no trailing punctuation) when it is empty; the full
caption is the label followed by the description; the grid caption and the
concatenated docx caption runs agree with the single-column caption. -/
theorem C9_caption (idx : ℕ) (description : String) :
    pdfService.listLabel idx description =
      "Figura " ++ toString (idx + 1) ++ (if description = "" then "" else ": ") ∧
    pdfService.listFullText idx description =
      pdfService.listLabel idx description ++ description ∧
    String.join (docxService.captionRunTexts idx description) =
      pdfService.listFullText idx description ∧
    pdfService.gridCaptionText idx description = pdfService.listFullText idx description := by
  by_cases hd : description = ""
  · subst hd
    refine ⟨?_, ?_, ?_, ?_⟩
    · rw [pdfService.listLabel, if_neg (by simp), if_pos rfl, str_append_empty]
    · rw [pdfService.listFullText, if_neg (by simp), str_append_empty]
    · rw [docxService.captionRunTexts, if_neg (by simp), if_neg (by simp), str_join_single,
        pdfService.listFullText, if_neg (by simp), pdfService.listLabel, if_neg (by simp)]
    · rw [pdfService.gridCaptionText, if_neg (by simp), pdfService.gridLabel, if_neg (by simp),
        pdfService.listFullText, if_neg (by simp), pdfService.listLabel, if_neg (by simp)]
  · refine ⟨?_, ?_, ?_, ?_⟩
    · rw [pdfService.listLabel, if_pos hd, if_neg hd]
    · rw [pdfService.listFullText, if_pos hd]
    · rw [docxService.captionRunTexts, if_pos hd, if_pos hd, str_join_pair,
        pdfService.listFullText, if_pos hd, pdfService.listLabel, if_pos hd]
    · rw [pdfService.gridCaptionText, if_pos hd, pdfService.gridLabel, if_pos hd,
        pdfService.listFullText, if_pos hd, pdfService.listLabel, if_pos hd]

/-! ## Grouping into rows of C cells -/

/-- The cells of the row starting at absolute image index `i` under column
count `C`: cell `j` holds image `i + j` when it exists, and stays empty
otherwise (the `img2`/`img3` presence checks of the grid loops; docx fills a
missing cell with an empty paragraph). -/
def rowCells (C n i : ℕ) : List (Option ℕ) :=
  (List.range C).map (fun j => if i + j < n then some (i + j) else none)

/-- Embeds the grid row loops (`for i = 0, C, 2C, ...`) shared by
pdfService generatePdf (grid3 lines 186-209, grid lines 293-307) and
docxService generateDocx (grid3 lines 454-470, grid lines 532-543): one row
of up to `C` consecutive figures per iteration. -/
def layoutRowsAux (C n i : ℕ) : List (List (Option ℕ)) :=
  if h : 0 < C ∧ i < n then rowCells C n i :: layoutRowsAux C n (i + C)
  else []
termination_by n - i
decreasing_by omega

/-- All rows produced by a grid loop over `n` images with column count `C`. -/
def layoutRows (C n : ℕ) : List (List (Option ℕ)) :=
  layoutRowsAux C n 0

/-- The rendered figure sequence: the filled cells of all rows in order. -/
def figureSeq (C n : ℕ) : List ℕ :=
  ((layoutRows C n).map (fun row => row.filterMap id)).flatten

theorem layoutRowsAux_of_lt (C n i : ℕ) (hC : 0 < C) (hi : i < n) :
    layoutRowsAux C n i = rowCells C n i :: layoutRowsAux C n (i + C) := by
  rw [layoutRowsAux, dif_pos ⟨hC, hi⟩]

theorem layoutRowsAux_of_ge (C n i : ℕ) (hi : ¬(0 < C ∧ i < n)) :
    layoutRowsAux C n i = [] := by
  rw [layoutRowsAux, dif_neg hi]

theorem layoutRowsAux_get? (C n : ℕ) (hC : 0 < C) :
    ∀ k i, (layoutRowsAux C n i).get? k =
      if i + k * C < n then some (rowCells C n (i + k * C)) else none := by
  intro k
  induction k with
  | zero =>
    intro i
    by_cases hi : i < n
    · rw [layoutRowsAux_of_lt C n i hC hi]
      simp [hi]
    · rw [layoutRowsAux_of_ge C n i (fun hcon => hi hcon.2)]
      simp [hi]
  | succ k ih =>
    intro i
    by_cases hi : i < n
    · rw [layoutRowsAux_of_lt C n i hC hi]
      simp only [List.get?_cons_succ]
      rw [ih (i + C)]
      have harith : i + C + k * C = i + (k + 1) * C := by ring
      rw [harith]
    · rw [layoutRowsAux_of_ge C n i (fun hcon => hi hcon.2)]
      have hge : ¬(i + (k + 1) * C < n) := by
        have : i ≤ i + (k + 1) * C := Nat.le_add_right _ _
        omega
      simp [hge]

theorem layoutRowsAux_length (C n : ℕ) (hC : 0 < C) :
    ∀ m i, n - i ≤ m → (layoutRowsAux C n i).length = (n - i + C - 1) / C := by
  intro m
  induction m with
  | zero =>
    intro i hm
    have hi : ¬ i < n := by omega
    rw [layoutRowsAux_of_ge C n i (fun hcon => hi hcon.2)]
    have h0 : n - i = 0 := by omega
    rw [h0, List.length_nil]
    exact (Nat.div_eq_of_lt (by omega)).symm
  | succ m ih =>
    intro i hm
    by_cases hi : i < n
    · rw [layoutRowsAux_of_lt C n i hC hi, List.length_cons, ih (i + C) (by omega)]
      by_cases hd : n - i ≤ C
      · have h1 : n - (i + C) = 0 := by omega
        rw [h1]
        have h2 : (0 + C - 1) / C = 0 := Nat.div_eq_of_lt (by omega)
        rw [h2]
        have hle : 1 * C ≤ n - i + C - 1 := by omega
        have hlt : n - i + C - 1 < (1 + 1) * C := by omega
        rw [Nat.div_eq_of_lt_le hle hlt]
      · have h1 : n - (i + C) + C - 1 = n - i - 1 := by omega
        have h2 : n - i + C - 1 = n - i - 1 + C := by omega
        rw [h1, h2, Nat.add_div_right _ hC]
    · rw [layoutRowsAux_of_ge C n i (fun hcon => hi hcon.2)]
      have h0 : n - i = 0 := by omega
      rw [h0, List.length_nil]
      exact (Nat.div_eq_of_lt (by omega)).symm

theorem layoutRows_length (C n : ℕ) (hC : 0 < C) :
    (layoutRows C n).length = (n + C - 1) / C := by
  rw [layoutRows, layoutRowsAux_length C n hC n 0 (by omega), Nat.sub_zero]

theorem range_filterMap_window (n i : ℕ) :
    ∀ c, ((List.range c).filterMap fun j => if i + j < n then some (i + j) else none) =
      List.range' i (min c (n - i)) := by
  intro c
  induction c with
  | zero => simp
  | succ c ih =>
    rw [List.range_succ, List.filterMap_append, ih]
    by_cases hc : i + c < n
    · have h1 : min (c + 1) (n - i) = c + 1 := by omega
      have h2 : min c (n - i) = c := by omega
      rw [h1, h2]
      simp only [List.filterMap_cons, if_pos hc, List.filterMap_nil]
      rw [List.range'_concat]
      norm_num
    · have h1 : min (c + 1) (n - i) = min c (n - i) := by omega
      rw [h1]
      simp [hc]

theorem rowCells_filled (C n i : ℕ) :
    (rowCells C n i).filterMap id = List.range' i (min C (n - i)) := by
  rw [rowCells, List.filterMap_map]
  have hcomp : (Option.some ∘ fun j : ℕ => if i + j < n then some (i + j) else none) =
      fun j : ℕ => some (if i + j < n then some (i + j) else none) := rfl
  show ((List.range C).filterMap
    (id ∘ fun j => if i + j < n then some (i + j) else none)) = _
  exact range_filterMap_window n i C

theorem layoutRowsAux_join (C n : ℕ) (hC : 0 < C) :
    ∀ m i, n - i ≤ m →
      ((layoutRowsAux C n i).map (fun row => row.filterMap id)).flatten =
        List.range' i (n - i) := by
  intro m
  induction m with
  | zero =>
    intro i hm
    have hi : ¬ i < n := by omega
    rw [layoutRowsAux_of_ge C n i (fun hcon => hi hcon.2)]
    have h0 : n - i = 0 := by omega
    rw [h0]
    simp
  | succ m ih =>
    intro i hm
    by_cases hi : i < n
    · rw [layoutRowsAux_of_lt C n i hC hi, List.map_cons, List.flatten_cons, rowCells_filled,
        ih (i + C) (by omega)]
      by_cases hd : C ≤ n - i
      · have h1 : min C (n - i) = C := by omega
        have h2 : n - (i + C) = n - i - C := by omega
        rw [h1, h2, List.range'_append_1]
        have h3 : n - i - C + C = n - i := by omega
        rw [h3]
      · have h1 : min C (n - i) = n - i := by omega
        have h2 : n - (i + C) = 0 := by omega
        rw [h1, h2]
        simp
    · rw [layoutRowsAux_of_ge C n i (fun hcon => hi hcon.2)]
      have h0 : n - i = 0 := by omega
      rw [h0]
      simp

theorem figureSeq_eq_range (C n : ℕ) (hC : 0 < C) : figureSeq C n = List.range n := by
  rw [figureSeq, layoutRows, layoutRowsAux_join C n hC n 0 (by omega), Nat.sub_zero,
    List.range_eq_range']

/-- C7.  The grid layout partitions the figure sequence into
`ceil (n / C) = (n + C - 1) / C` consecutive rows; row `k` holds cells
`k*C, k*C+1, ...`, filled exactly while the image index is below `n` (so
only the last row can be partially filled, its trailing cells left empty);
concatenating the filled cells in order recovers the full sequence; and
concretely 8 images at 3 columns give 3 rows whose last row has two filled
cells and one empty cell. -/
theorem C7_partition (C n : ℕ) (hC : C = 2 ∨ C = 3) :
    (layoutRows C n).length = (n + C - 1) / C ∧
    (∀ k, (layoutRows C n).get? k =
      if k * C < n then some (rowCells C n (k * C)) else none) ∧
    figureSeq C n = List.range n ∧
    (∀ k, k + 1 < (layoutRows C n).length →
      (layoutRows C n).get? k = some ((List.range C).map (fun j => some (k * C + j)))) ∧
    layoutRows 3 8 =
      [[some 0, some 1, some 2], [some 3, some 4, some 5], [some 6, some 7, none]] := by
  have hC0 : 0 < C := by rcases hC with rfl | rfl <;> norm_num
  have hget : ∀ k, (layoutRows C n).get? k =
      if k * C < n then some (rowCells C n (k * C)) else none := by
    intro k
    rw [layoutRows, layoutRowsAux_get? C n hC0 k 0, Nat.zero_add]
  refine ⟨layoutRows_length C n hC0, hget, figureSeq_eq_range C n hC0, ?_, ?_⟩
  · intro k hk
    rw [layoutRows_length C n hC0] at hk
    have hfull : (k + 1) * C < n := by
      have h1 : k + 2 ≤ (n + C - 1) / C := by omega
      have h2 : (k + 2) * C ≤ n + C - 1 := (Nat.le_div_iff_mul_le hC0).mp h1
      have h3 : (k + 2) * C = (k + 1) * C + C := by ring
      omega
    have hkC : k * C < n := by
      have : k * C ≤ (k + 1) * C := by
        have : k ≤ k + 1 := by omega
        exact Nat.mul_le_mul_right C this
      omega
    rw [hget k, if_pos hkC]
    congr 1
    rw [rowCells]
    apply List.map_congr_left
    intro j hj
    have hjC : j < C := List.mem_range.mp hj
    have : k * C + j < n := by
      have h4 : (k + 1) * C = k * C + C := by ring
      omega
    rw [if_pos this]
  · have e9 : layoutRowsAux 3 8 9 = [] := layoutRowsAux_of_ge 3 8 9 (by omega)
    have e6 : layoutRowsAux 3 8 6 = rowCells 3 8 6 :: layoutRowsAux 3 8 9 := by
      have := layoutRowsAux_of_lt 3 8 6 (by norm_num) (by norm_num)
      simpa using this
    have e3 : layoutRowsAux 3 8 3 = rowCells 3 8 3 :: layoutRowsAux 3 8 6 := by
      have := layoutRowsAux_of_lt 3 8 3 (by norm_num) (by norm_num)
      simpa using this
    have e0 : layoutRowsAux 3 8 0 = rowCells 3 8 0 :: layoutRowsAux 3 8 3 := by
      have := layoutRowsAux_of_lt 3 8 0 (by norm_num) (by norm_num)
      simpa using this
    rw [layoutRows, e0, e3, e6, e9]
    have r0 : rowCells 3 8 0 = [some 0, some 1, some 2] := by decide
    have r3 : rowCells 3 8 3 = [some 3, some 4, some 5] := by decide
    have r6 : rowCells 3 8 6 = [some 6, some 7, none] := by decide
    rw [r0, r3, r6]

/-- C7, witness: the concrete 8-image, 3-column scenario. -/
theorem C7_witness :
    (layoutRows 3 8).length = (8 + 3 - 1) / 3 ∧
    layoutRows 3 8 =
      [[some 0, some 1, some 2], [some 3, some 4, some 5], [some 6, some 7, none]] :=
  ⟨(C7_partition 3 8 (Or.inr rfl)).1, (C7_partition 3 8 (Or.inr rfl)).2.2.2.2⟩

/-- C6.  In every layout the figure at 0-based sequence position `i` is
image `i` itself (grouping and pagination never permute or renumber the
sequence), and its caption carries the 1-based number `i + 1` in both output
formats. -/
theorem C6_numbering (C n i : ℕ) (hC : C = 1 ∨ C = 2 ∨ C = 3) (hi : i < n)
    (description : String) :
    (figureSeq C n).get? i = some i ∧
    (∃ tail, pdfService.listFullText i description =
      "Figura " ++ toString (i + 1) ++ tail) ∧
    (∃ tail, pdfService.gridCaptionText i description =
      "Figura " ++ toString (i + 1) ++ tail) ∧
    (∃ tail, String.join (docxService.captionRunTexts i description) =
      "Figura " ++ toString (i + 1) ++ tail) := by
  have hC0 : 0 < C := by rcases hC with rfl | rfl | rfl <;> norm_num
  refine ⟨?_, ?_, ?_, ?_⟩
  · rw [figureSeq_eq_range C n hC0, List.get?_eq_getElem?, List.getElem?_range hi]
  · by_cases hd : description = ""
    · refine ⟨"", ?_⟩
      rw [pdfService.listFullText, if_neg (by simp [hd]), pdfService.listLabel,
        if_neg (by simp [hd]), str_append_empty]
    · refine ⟨": " ++ description, ?_⟩
      rw [pdfService.listFullText, if_pos hd, pdfService.listLabel, if_pos hd,
        str_append_assoc]
  · by_cases hd : description = ""
    · refine ⟨"", ?_⟩
      rw [pdfService.gridCaptionText, if_neg (by simp [hd]), pdfService.gridLabel,
        if_neg (by simp [hd]), str_append_empty]
    · refine ⟨": " ++ description, ?_⟩
      rw [pdfService.gridCaptionText, if_pos hd, pdfService.gridLabel, if_pos hd,
        str_append_assoc]
  · by_cases hd : description = ""
    · refine ⟨"", ?_⟩
      rw [docxService.captionRunTexts, if_neg (by simp [hd]), if_neg (by simp [hd]),
        str_join_single, str_append_empty]
    · refine ⟨": " ++ description, ?_⟩
      rw [docxService.captionRunTexts, if_pos hd, if_pos hd, str_join_pair,
        str_append_assoc]

/-- C6, witness: position 4 of 8 images in the 3-column layout carries
figure number 5. -/
theorem C6_witness :
    (figureSeq 3 8).get? 4 = some 4 ∧
    (∃ tail, pdfService.gridCaptionText 4 "desc" = "Figura " ++ toString (4 + 1) ++ tail) := by
  have h := C6_numbering 3 8 4 (Or.inr (Or.inr rfl)) (by norm_num) "desc"
  exact ⟨h.1, h.2.2.1⟩

/-! ## Page-break bookkeeping of the fixed-page renderer -/

/-- A row as placed by the fixed-page renderer: the page it is drawn on,
the y coordinate of its top edge, and its height. -/
structure PlacedRow where
  page : ℕ
  top : ℚ
  height : ℚ
  deriving DecidableEq

/-- Embeds the cursor/page bookkeeping shared by the three pdf layout loops
(pdfService lines 131-134, 233-236, 329-332, with the cursor advance at
lines 178, 285, 364): before drawing a row of height `rh`, if
`cursorY + rh > PAGE_HEIGHT - MARGIN_BOTTOM` a new page is started and the
cursor resets to `MARGIN_Y`; the row is drawn at the cursor on the current
page, which then advances by `rh + gap`.  Every row is drawn entirely on the
single page recorded in its `PlacedRow`. -/
def placeRows (gap : ℚ) : ℕ → ℚ → List ℚ → List PlacedRow
  | _, _, [] => []
  | page, cursorY, rh :: rest =>
    if PAGE_HEIGHT - MARGIN_BOTTOM < cursorY + rh then
      { page := page + 1, top := MARGIN_Y, height := rh } ::
        placeRows gap (page + 1) (MARGIN_Y + rh + gap) rest
    else
      { page := page, top := cursorY, height := rh } ::
        placeRows gap page (cursorY + rh + gap) rest

namespace pdfService

/-- Embeds the block-height computation of the single-column pdf renderer
(lines 106-129): image height from the fixed 120 mm width, caption height 5
per wrapped line (a single 5 mm line when the measured text fits the content
width), caption spacing 5, fixed extra spacing 2, and padding 5 on each side
when the style is bordered.  `measuredWidth` and `splitCount` stand for the
jsPDF text-measurement results `getTextWidth` and `splitTextToSize.length`. -/
def listBlockHeight (pW pH : ℕ) (measuredWidth : ℚ) (splitCount : ℕ)
    (bordered : Bool) : ℚ :=
  let ratio : ℚ := LIST_IMG_WIDTH / pW
  let imgHeight : ℚ := pH * ratio
  let captionHeight : ℚ := if CONTENT_WIDTH < measuredWidth then splitCount * 5 else 5
  let padding : ℚ := if bordered then 5 else 0
  let contentHeight : ℚ := imgHeight + (if 0 < captionHeight then captionHeight + 5 else 0) + 2
  contentHeight + padding * 2

end pdfService

/-- C1, amended.  Starting at any cursor position at or below the top margin,
as long as every row height is nonnegative and at most the usable content
height `PAGE_HEIGHT - MARGIN_BOTTOM - MARGIN_Y` (257 mm), every placed row
lies entirely inside the content area of the single page it is placed on. -/
theorem C1_amended (gap : ℚ) (hg : 0 ≤ gap) :
    ∀ rows : List ℚ,
      (∀ rh ∈ rows, 0 ≤ rh ∧ rh ≤ PAGE_HEIGHT - MARGIN_BOTTOM - MARGIN_Y) →
      ∀ page0 : ℕ, ∀ c0 : ℚ, MARGIN_Y ≤ c0 →
      ∀ r ∈ placeRows gap page0 c0 rows,
        MARGIN_Y ≤ r.top ∧ r.top + r.height ≤ PAGE_HEIGHT - MARGIN_BOTTOM := by
  intro rows
  induction rows with
  | nil =>
    intro _ page0 c0 _ r hr
    simp [placeRows] at hr
  | cons rh rest ih =>
    intro hrows page0 c0 hc0 r hr
    obtain ⟨hrh0, hrhB⟩ := hrows rh (List.mem_cons_self _ _)
    have hrest : ∀ x ∈ rest, 0 ≤ x ∧ x ≤ PAGE_HEIGHT - MARGIN_BOTTOM - MARGIN_Y :=
      fun x hx => hrows x (List.mem_cons_of_mem _ hx)
    rw [placeRows] at hr
    by_cases hcond : PAGE_HEIGHT - MARGIN_BOTTOM < c0 + rh
    · rw [if_pos hcond] at hr
      rcases List.mem_cons.mp hr with rfl | hr'
      · exact ⟨le_refl _, by linarith⟩
      · exact ih hrest (page0 + 1) (MARGIN_Y + rh + gap) (by linarith) r hr'
    · rw [if_neg hcond] at hr
      push_neg at hcond
      rcases List.mem_cons.mp hr with rfl | hr'
      · exact ⟨hc0, hcond⟩
      · exact ih hrest page0 (c0 + rh + gap) (by linarith) r hr'

/-- C1, witness: of two rows of heights 100 and 200 placed after a 68 mm
header, the second overflows the first page, is moved to the next page, and
lies inside that page's content area. -/
theorem C1_witness :
    MARGIN_Y ≤ (PlacedRow.mk 1 MARGIN_Y 200).top ∧
    (PlacedRow.mk 1 MARGIN_Y 200).top + (PlacedRow.mk 1 MARGIN_Y 200).height ≤
      PAGE_HEIGHT - MARGIN_BOTTOM := by
  have hrows : ∀ rh ∈ ([100, 200] : List ℚ),
      0 ≤ rh ∧ rh ≤ PAGE_HEIGHT - MARGIN_BOTTOM - MARGIN_Y := by
    intro rh hrh
    rcases List.mem_cons.mp hrh with rfl | hrh
    · norm_num [PAGE_HEIGHT, MARGIN_BOTTOM, MARGIN_Y]
    · rcases List.mem_cons.mp hrh with rfl | hrh
      · norm_num [PAGE_HEIGHT, MARGIN_BOTTOM, MARGIN_Y]
      · simp at hrh
  have hmem : PlacedRow.mk 1 MARGIN_Y 200 ∈ placeRows 3 0 68 [100, 200] := by
    have e : placeRows 3 0 68 [100, 200] =
        [PlacedRow.mk 0 68 100, PlacedRow.mk 1 MARGIN_Y 200] := by
      simp only [placeRows]
      rw [if_neg (by norm_num [PAGE_HEIGHT, MARGIN_BOTTOM]),
        if_pos (by norm_num [PAGE_HEIGHT, MARGIN_BOTTOM])]
    rw [e]
    simp
  exact C1_amended 3 (by norm_num) [100, 200] hrows 0 68 (by norm_num [MARGIN_Y]) _ hmem

/-- C1, counterexample.  A 1080 by 2400 source photo (a common phone
screenshot shape) is normalized to 720 by 1600; in the single-column layout
its block height is `1600 * (120/720) + 12 = 800/3 + 12` (about 278.7 mm),
more than the 257 mm of usable content height.  The page-break guard fires
(the row starts a fresh page at the top margin), yet the row's bottom edge
`20 + 800/3 + 12` (about 298.7 mm) still crosses the bottom margin — indeed
the physical page end at 297 mm — so the row is not fully contained in the
page it starts on. -/
theorem C1_counterexample :
    docxService.scaleCapDims 1080 2400 = (JsNum.fin 720, JsNum.fin 1600) ∧
    pdfService.listBlockHeight 720 1600 30 1 false = 800 / 3 + 12 ∧
    placeRows 4 0 68 [800 / 3 + 12] =
      [{ page := 1, top := MARGIN_Y, height := 800 / 3 + 12 }] ∧
    PAGE_HEIGHT - MARGIN_BOTTOM < MARGIN_Y + (800 / 3 + 12) := by
  refine ⟨?_, ?_, ?_, ?_⟩
  · rw [docxService.scaleCapDims, if_pos (by norm_num [MAX_DIMENSION])]
    rw [jsDiv_of_ne_zero _ _ (by norm_num), jsDiv_of_ne_zero _ _ (by norm_num)]
    simp only [jsMin_fin_fin, jsMul_fin_fin, jsRound_fin]
    have hmin : min ((MAX_DIMENSION : ℚ) / ((1080 : ℕ) : ℚ))
        ((MAX_DIMENSION : ℚ) / ((2400 : ℕ) : ℚ)) = 2 / 3 := by
      rw [min_eq_right (by norm_num [MAX_DIMENSION])]
      norm_num [MAX_DIMENSION]
    rw [hmin]
    rw [show ((1080 : ℕ) : ℚ) * (2 / 3) = 720 by norm_num,
      show ((2400 : ℕ) : ℚ) * (2 / 3) = 1600 by norm_num]
    rw [ratRound_eq_of 720 720 (by norm_num) (by norm_num),
      ratRound_eq_of 1600 1600 (by norm_num) (by norm_num)]
    norm_num
  · rw [pdfService.listBlockHeight]
    norm_num [LIST_IMG_WIDTH, CONTENT_WIDTH, PAGE_WIDTH, MARGIN_X]
  · simp only [placeRows]
    rw [if_pos (by norm_num [PAGE_HEIGHT, MARGIN_BOTTOM])]
  · norm_num [PAGE_HEIGHT, MARGIN_BOTTOM, MARGIN_Y]

/-! ## Per-image versus per-row error recovery -/

/-- Embeds the per-image try/catch of the single-column loops (pdfService
lines 99-183; docxService lines 369-416 and 420-439): each image is
processed inside its own try, so a decode failure skips only that image and
the loop continues. `fails i = true` models `processImage` rejecting for
image `i`. -/
def listRendered (n : ℕ) (fails : ℕ → Bool) : List ℕ :=
  (List.range n).filter (fun i => !(fails i))

/-- The indices of the images actually present in the row starting at `i`. -/
def rowFilled (C n i : ℕ) : List ℕ :=
  (List.range (min C (n - i))).map (fun j => i + j)

/-- Embeds the per-row try/catch of the grid loops (pdfService lines 191-289
and 297-368; docxService lines 459-507 and 536-572): all images of a row are
processed inside one try, so if any of them rejects, the catch drops the
whole row and the loop continues with the next row. -/
def gridRenderedAux (C n : ℕ) (fails : ℕ → Bool) (i : ℕ) : List ℕ :=
  if h : 0 < C ∧ i < n then
    (if (rowFilled C n i).any fails then [] else rowFilled C n i) ++
      gridRenderedAux C n fails (i + C)
  else []
termination_by n - i
decreasing_by omega

/-- Image indices rendered by an entire grid run. -/
def gridRendered (C n : ℕ) (fails : ℕ → Bool) : List ℕ :=
  gridRenderedAux C n fails 0

/-- The failure oracle in which exactly image `f` fails to decode. -/
def failOnly (f : ℕ) : ℕ → Bool :=
  fun i => i == f

theorem gridRenderedAux_of_lt (C n : ℕ) (fails : ℕ → Bool) (i : ℕ)
    (hC : 0 < C) (hi : i < n) :
    gridRenderedAux C n fails i =
      (if (rowFilled C n i).any fails then [] else rowFilled C n i) ++
        gridRenderedAux C n fails (i + C) := by
  rw [gridRenderedAux, dif_pos ⟨hC, hi⟩]

theorem gridRenderedAux_of_ge (C n : ℕ) (fails : ℕ → Bool) (i : ℕ)
    (hi : ¬(0 < C ∧ i < n)) :
    gridRenderedAux C n fails i = [] := by
  rw [gridRenderedAux, dif_neg hi]

theorem mem_rowFilled (C n i x : ℕ) :
    x ∈ rowFilled C n i ↔ i ≤ x ∧ x < i + C ∧ x < n := by
  simp only [rowFilled, List.mem_map, List.mem_range]
  constructor
  · rintro ⟨j, hj, rfl⟩
    omega
  · rintro ⟨h1, h2, h3⟩
    exact ⟨x - i, by omega, by omega⟩

theorem nat_div_eq_iff (C x c : ℕ) (hC : 0 < C) :
    x / C = c ↔ C * c ≤ x ∧ x < C * c + C := by
  constructor
  · intro h
    subst h
    have h1 := Nat.div_add_mod x C
    have h2 := Nat.mod_lt x hC
    omega
  · rintro ⟨h1, h2⟩
    have h1' : c * C ≤ x := by rw [Nat.mul_comm]; exact h1
    have h2' : x < (c + 1) * C := by
      rw [Nat.succ_mul, Nat.mul_comm c C]
      omega
    exact Nat.div_eq_of_lt_le h1' h2'

theorem rowFilled_any_failOnly (C n i f : ℕ) (hf : f < n) :
    (rowFilled C n i).any (failOnly f) = true ↔ i ≤ f ∧ f < i + C := by
  rw [List.any_eq_true]
  constructor
  · rintro ⟨x, hx, hpx⟩
    have hxf : x = f := by
      have := (beq_iff_eq).mp hpx
      exact this
    subst hxf
    have := (mem_rowFilled C n i x).mp hx
    exact ⟨this.1, this.2.1⟩
  · rintro ⟨h1, h2⟩
    refine ⟨f, (mem_rowFilled C n i f).mpr ⟨h1, h2, hf⟩, ?_⟩
    simp [failOnly]

theorem gridRenderedAux_mem (C n f : ℕ) (hC : 0 < C) (hf : f < n) :
    ∀ m s i, C ∣ s → n - s ≤ m → i < n →
      (i ∈ gridRenderedAux C n (failOnly f) s ↔ s ≤ i ∧ i / C ≠ f / C) := by
  intro m
  induction m with
  | zero =>
    intro s i _ hm hi
    have hs : ¬ s < n := by omega
    rw [gridRenderedAux_of_ge C n _ s (fun hcon => hs hcon.2)]
    simp only [List.not_mem_nil, false_iff]
    rintro ⟨hsi, _⟩
    omega
  | succ m ih =>
    intro s i hdvd hm hi
    by_cases hs : s < n
    · obtain ⟨c, rfl⟩ := hdvd
      rw [gridRenderedAux_of_lt C n _ _ hC hs, List.mem_append,
        ih (C * c + C) i ⟨c + 1, by ring⟩ (by omega) hi]
      have hrowmem : i ∈ rowFilled C n (C * c) ↔ C * c ≤ i ∧ i < C * c + C :=
        ⟨fun hx => ((mem_rowFilled C n (C * c) i).mp hx).imp id And.left,
         fun hx => (mem_rowFilled C n (C * c) i).mpr ⟨hx.1, hx.2, hi⟩⟩
      have hidiv := nat_div_eq_iff C i c hC
      have hfdiv := nat_div_eq_iff C f c hC
      by_cases hfc : f / C = c
      · have hany : (rowFilled C n (C * c)).any (failOnly f) = true := by
          rw [rowFilled_any_failOnly C n (C * c) f hf]
          have := hfdiv.mp hfc
          exact ⟨this.1, this.2⟩
        rw [if_pos hany]
        simp only [List.not_mem_nil, false_or]
        constructor
        · rintro ⟨h1, h2⟩
          exact ⟨by omega, h2⟩
        · rintro ⟨h1, h2⟩
          rcases Nat.lt_or_ge i (C * c + C) with hlt | hge
          · exact absurd (hidiv.mpr ⟨h1, hlt⟩) (by rw [hfc] at h2; exact h2)
          · exact ⟨hge, h2⟩
      · have hany : ¬ (rowFilled C n (C * c)).any (failOnly f) = true := by
          rw [rowFilled_any_failOnly C n (C * c) f hf]
          rintro ⟨h1, h2⟩
          exact hfc (hfdiv.mpr ⟨h1, h2⟩)
        rw [if_neg hany, hrowmem]
        constructor
        · rintro (⟨h1, h2⟩ | ⟨h1, h2⟩)
          · have hic : i / C = c := hidiv.mpr ⟨h1, h2⟩
            exact ⟨h1, by rw [hic]; exact fun hcc => hfc hcc.symm⟩
          · exact ⟨by omega, h2⟩
        · rintro ⟨h1, h2⟩
          rcases Nat.lt_or_ge i (C * c + C) with hlt | hge
          · exact Or.inl ⟨h1, hlt⟩
          · exact Or.inr ⟨hge, h2⟩
    · rw [gridRenderedAux_of_ge C n _ s (fun hcon => hs hcon.2)]
      simp only [List.not_mem_nil, false_iff]
      rintro ⟨hsi, _⟩
      omega

/-- C8, counterexample.  In a 3-column grid of 3 images where exactly image
0 fails to decode, the row-level catch drops the entire first row: images 1
and 2 did not fail, yet nothing at all is rendered — contradicting the claim
that only the failing image is skipped. -/
theorem C8_counterexample :
    failOnly 0 0 = true ∧ failOnly 0 1 = false ∧ failOnly 0 2 = false ∧
    gridRendered 3 3 (failOnly 0) = [] := by
  refine ⟨rfl, rfl, rfl, ?_⟩
  rw [gridRendered, gridRenderedAux_of_lt 3 3 (failOnly 0) 0 (by norm_num) (by norm_num)]
  have e3 : gridRenderedAux 3 3 (failOnly 0) (0 + 3) = [] :=
    gridRenderedAux_of_ge 3 3 (failOnly 0) (0 + 3) (by omega)
  rw [e3]
  have hany : (rowFilled 3 3 0).any (failOnly 0) = true := by decide
  rw [if_pos hany, List.nil_append]

/-- C8, amended.  A single decode failure is recoverable in every layout:
rendering continues and all remaining rows are emitted.  In the single
column (list) layouts only the failing image is skipped; in the 2- and
3-column grid layouts the whole row containing the failing image is dropped
(its healthy members with it), and exactly the images outside that row are
rendered. -/
theorem C8_amended (n f i : ℕ) (hf : f < n) (hi : i < n) :
    (i ∈ listRendered n (failOnly f) ↔ i ≠ f) ∧
    (∀ C, C = 2 ∨ C = 3 → (i ∈ gridRendered C n (failOnly f) ↔ i / C ≠ f / C)) := by
  constructor
  · rw [listRendered, List.mem_filter]
    simp [List.mem_range, hi, failOnly]
  · intro C hC
    have hC0 : 0 < C := by rcases hC with rfl | rfl <;> norm_num
    rw [gridRendered, gridRenderedAux_mem C n f hC0 hf n 0 i (dvd_zero C) (by omega) hi]
    simp

/-- C8, witness: with 6 images in a 3-column grid and image 0 failing,
image 4 (second row) is rendered while image 1 (first row) is not. -/
theorem C8_witness :
    (4 ∈ gridRendered 3 6 (failOnly 0) ↔ 4 / 3 ≠ 0 / 3) ∧
    (1 ∈ gridRendered 3 6 (failOnly 0) ↔ 1 / 3 ≠ 0 / 3) ∧
    (4 ∈ listRendered 6 (failOnly 0) ↔ (4 : ℕ) ≠ 0) := by
  refine ⟨((C8_amended 6 0 4 (by norm_num) (by norm_num)).2 3 (Or.inr rfl)),
    ((C8_amended 6 0 1 (by norm_num) (by norm_num)).2 3 (Or.inr rfl)),
    (C8_amended 6 0 4 (by norm_num) (by norm_num)).1⟩

end Report
